import Mathlib

/-!
Verification of the PyCNL core: the `Namespace` name tree
(`src/python/pycnl/namespace.py`) and the
`GeneralizedObjectStreamHandler` pipeline
(`src/python/pycnl/generalized_object/generalized_object_stream_handler.py`),
shallowly embedded in Lean.

Modelling conventions:
* A name component is opaque binary data with a total (byte-lexicographic)
  order in the source; for the name-tree development we model a component as
  a `Nat` and its order as the `Nat` order.  Only equality and the order are
  used by the embedded code.  The stream handler additionally distinguishes
  typed components (generic, sequence number, version), modelled by `NComp`.
* A node's children dictionary together with its incrementally sorted key
  list (`_children` / `_sortedChildrenKeys`) is modelled as one association
  list kept in ascending key order (`insertChild` is `bisect.insort`).
* `_setState` invocations are recorded as explicit event lists
  `(changed node name, new state)`; observer dispatch itself is modelled by
  `fireLoop` below.
* Python exceptions raised by an operation are modelled by returning the
  untouched receiver together with `some errorMessage`, since `raise`
  aborts the call before any mutation.
* Network side effects requested from the transport collaborator
  (`objectNeeded`, `Face.callLater`, starting a `GeneralizedObjectHandler`)
  are recorded as `NetAction` values.
-/

/-! ## NamespaceState (namespace.py lines 530-543) -/

def nameExists : Nat := 0
def interestExpressed : Nat := 1
def interestTimeout : Nat := 2
def dataReceived : Nat := 3
def decrypting : Nat := 4
def decryptionError : Nat := 5
def transformingContent : Nat := 6
def contentReady : Nat := 7
def contentReadyButStale : Nat := 8

/-- Modelled from the spec: the stream handler references
`NamespaceState.INTEREST_NETWORK_NACK`, which the included `namespace.py`
does not define (its enum stops at `CONTENT_READY_BUT_STALE`, with a TODO
for the NACK value).  Only equality tests and comparisons against
`INTEREST_EXPRESSED` matter, so it is modelled as a fresh value above the
listed enum. -/
def interestNetworkNack : Nat := 9

/-- Modelled from the spec: the stream handler references
`NamespaceState.OBJECT_READY` (the state fired when a generalized object has
been assembled), which the included `namespace.py` does not define.  Only
equality tests matter, so it is modelled as a fresh value above the listed
enum. -/
def objectReady : Nat := 10

/-! ## Data model of one namespace node -/

/-- A Data packet as the name tree sees it: a name and an opaque payload
(the payload is only carried around and compared, so it is a `Nat`). -/
structure DataPacket where
  name : List Nat
  content : Nat
deriving DecidableEq, Repr

/-- An entry of `_onStateChangedCallbacks`.  The stored Python callback is
modelled by its observable behavior during one dispatch: the set of callback
ids it removes from the dispatching node (via `removeCallback`) and whether
it raises an exception. -/
structure Observer where
  id : Nat
  removes : List Nat
  raises : Bool
deriving DecidableEq, Repr

/-- One delivered `onStateChanged(namespace, changedNamespace, state,
callbackId)` call: the name of the namespace owning the observer, the name
of the changed node, the new state and the callback id. -/
structure ObsCall where
  nsName : List Nat
  changedName : List Nat
  state : Nat
  id : Nat
deriving DecidableEq, Repr

/-- A `Namespace` node: full name, children (ascending key order, mirroring
`_children` plus `_sortedChildrenKeys`), `_state`, `_data`, `_content` and
the `_onStateChangedCallbacks` registry. -/
inductive NsTree : Type where
  | mk (name : List Nat) (children : List (Nat × NsTree)) (state : Nat)
       (data : Option DataPacket) (content : Option Nat)
       (observers : List Observer)

def NsTree.name : NsTree → List Nat
  | .mk nm _ _ _ _ _ => nm

def NsTree.children : NsTree → List (Nat × NsTree)
  | .mk _ ch _ _ _ _ => ch

def NsTree.state : NsTree → Nat
  | .mk _ _ st _ _ _ => st

def NsTree.data : NsTree → Option DataPacket
  | .mk _ _ _ d _ _ => d

def NsTree.content : NsTree → Option Nat
  | .mk _ _ _ _ co _ => co

def NsTree.observers : NsTree → List Observer
  | .mk _ _ _ _ _ obs => obs

/-- `_children[component]` (dictionary lookup). -/
def findChild : List (Nat × NsTree) → Nat → Option NsTree
  | [], _ => none
  | (k, u) :: rest, c => if k = c then some u else findChild rest c

/-- Replace the value stored at an existing key (dictionary assignment to a
key that is already present; the key list is unchanged). -/
def replaceChild : List (Nat × NsTree) → Nat → NsTree → List (Nat × NsTree)
  | [], _, _ => []
  | (k, u) :: rest, c, v =>
    if k = c then (k, v) :: rest else (k, u) :: replaceChild rest c v

/-- Insert a fresh key keeping ascending key order
(`self._children[component] = child` plus
`bisect.insort(self._sortedChildrenKeys, component)`). -/
def insertChild : List (Nat × NsTree) → Nat → NsTree → List (Nat × NsTree)
  | [], c, v => [(c, v)]
  | (k, u) :: rest, c, v =>
    if c < k then (c, v) :: (k, u) :: rest else (k, u) :: insertChild rest c v

/-- A state-set event: `_setState(state)` was invoked on the node with the
given full name. -/
abbrev Ev := List Nat × Nat

/-! ## Namespace.setData (namespace.py lines 173-204, 433-444)

`transform` tells whether `_getTransformContent()` found a hook on this node
or an ancestor.  Without a hook, `setData` runs `_onContentTransformed`
inline (content set, state `CONTENT_READY`); with a hook the transform
callback is handed the data and the node is left in `DATA_RECEIVED` until
the hook calls back. -/
def setData (t : NsTree) (transform : Bool) (d : DataPacket) :
    NsTree × List Ev × Option String :=
  match t with
  | NsTree.mk nm ch st dat co obs =>
    if dat.isSome then
      -- We already have an attached object: do nothing.
      (NsTree.mk nm ch st dat co obs, [], none)
    else if d.name ≠ nm then
      (NsTree.mk nm ch st dat co obs, [],
       some "The Data packet name does not equal the name of this Namespace node.")
    else
      if transform then
        (NsTree.mk nm ch dataReceived (some d) co obs, [(nm, dataReceived)], none)
      else
        (NsTree.mk nm ch contentReady (some d) (some d.content) obs,
         [(nm, dataReceived), (nm, contentReady)], none)

/-! ## Namespace.getChild (namespace.py lines 113-161, 380-405)

`getChildWalk t rest` walks from node `t` along the remaining components
`rest` of the descendant name, creating missing nodes via `_createChild`.
Only the creation of the final (leaf) node passes `fireCallbacks = True`;
`_createChild` then runs `self._setState(NamespaceState.NAME_EXISTS)` on
`self`, which is the leaf's immediate parent: the parent's `_state` is
(re)set to `NAME_EXISTS` and the callbacks fire with the parent as the
changed namespace, recorded as a `(parentName, NAME_EXISTS)` event.
Creating intermediate nodes fires nothing and sets no state.  It returns
the updated subtree, the found/created descendant node and the fired
events. -/
def getChildWalk : NsTree → List Nat → NsTree × NsTree × List Ev
  | t, [] => (t, t, [])
  | NsTree.mk nm ch st d co obs, c :: rest =>
    match findChild ch c with
    | some child =>
      let r := getChildWalk child rest
      (NsTree.mk nm (replaceChild ch c r.1) st d co obs, r.2.1, r.2.2)
    | none =>
      let newChild := NsTree.mk (nm ++ [c]) [] nameExists none none []
      if rest = [] then
        -- Leaf creation: `self._setState(NAME_EXISTS)` on this node, the
        -- leaf's parent.
        (NsTree.mk nm (insertChild ch c newChild) nameExists d co obs,
         newChild, [(nm, nameExists)])
      else
        let r := getChildWalk newChild rest
        (NsTree.mk nm (insertChild ch c r.1) st d co obs, r.2.1, r.2.2)

/-- Pure descent without creation, used to state which node a name denotes
in a tree. -/
def lookupPath : NsTree → List Nat → Option NsTree
  | t, [] => some t
  | NsTree.mk _ ch _ _ _ _, c :: rest =>
    match findChild ch c with
    | some child => lookupPath child rest
    | none => none

/-- `Namespace.getChild` with a full descendant `Name`: checks the prefix
requirement, then walks by component count.  Returns the updated tree, the
returned node, the fired events, and the raised error if any. -/
def getChildByName (t : NsTree) (descendantName : List Nat) :
    NsTree × NsTree × List Ev × Option String :=
  if t.name.isPrefixOf descendantName then
    let r := getChildWalk t (descendantName.drop t.name.length)
    (r.1, r.2.1, r.2.2, none)
  else
    (t, t, [], some "The name of this node is not a prefix of the descendant name")

/-- Well-formedness of a tree as maintained by `_createChild`: every child's
name is the parent's name with exactly its key appended. -/
inductive Wf : NsTree → Prop where
  | mk {nm ch st d co obs} :
      (∀ p ∈ ch, (p : Nat × NsTree).2.name = nm ++ [p.1]) →
      (∀ p ∈ ch, Wf (p : Nat × NsTree).2) →
      Wf (NsTree.mk nm ch st d co obs)

/-! ## Namespace._setState and _fireOnStateChanged (namespace.py 407-431)

The dispatch at one node snapshot-copies the callback ids
(`list(self._onStateChangedCallbacks.keys())`), then for each id checks that
it is still registered, invokes it, and catches and logs any exception.  An
invoked callback's effect is modelled by its `Observer` record: it removes
the listed ids from this node's registry and possibly raises. -/

def removeIds (obs : List Observer) (ids : List Nat) : List Observer :=
  obs.filter (fun p => !(ids.contains p.id))

/-- Run one observer: its removals take effect on the dispatching node's
registry and it reports an exception if it raises. -/
def invokeObserver (o : Observer) (obs : List Observer) :
    List Observer × Option String :=
  (removeIds obs o.removes, if o.raises then some "Error in onStateChanged" else none)

/-- The snapshot iteration of `_fireOnStateChanged`: `ids` is the snapshot,
`obs` the current registry.  Returns the delivered calls and the final
registry.  A raised exception (the `Option String` from `invokeObserver`) is
caught and logged at this site and iteration continues. -/
def fireLoop (sn cn : List Nat) (st : Nat) : List Nat → List Observer →
    List ObsCall × List Observer
  | [], obs => ([], obs)
  | i :: rest, obs =>
    match obs.find? (fun o => o.id == i) with
    | none => fireLoop sn cn st rest obs
    | some o =>
      let invoked := invokeObserver o obs
      let r := fireLoop sn cn st rest invoked.1
      (⟨sn, cn, st, i⟩ :: r.1, r.2)

def fireOnStateChanged (sn cn : List Nat) (st : Nat) (obs : List Observer) :
    List ObsCall × List Observer :=
  fireLoop sn cn st (obs.map (fun o => o.id)) obs

/-- `_setState` on the node reached from `t` along `path`: sets that node's
state and fires the observers of the node and of every ancestor up to `t`
(the root), bubbling up.  Returns the updated tree, the delivered calls in
delivery order, and the changed node's name; `none` if `path` does not
exist. -/
def setStateAt : NsTree → List Nat → Nat → Option (NsTree × List ObsCall × List Nat)
  | NsTree.mk nm ch _ d co obs, [], st =>
    let r := fireOnStateChanged nm nm st obs
    some (NsTree.mk nm ch st d co r.2, r.1, nm)
  | NsTree.mk nm ch st0 d co obs, c :: rest, st =>
    match findChild ch c with
    | none => none
    | some child =>
      match setStateAt child rest st with
      | none => none
      | some r =>
        let f := fireOnStateChanged nm r.2.2 st obs
        some (NsTree.mk nm (replaceChild ch c r.1) st0 d co f.2, r.2.1 ++ f.1, r.2.2)

/-- The calls `_setState` is specified to deliver when no observer removes
another: every observer of the changed node and of each of its ancestors,
child first, each receiving its own namespace, the changed name and the new
state. -/
def expectedCalls : NsTree → List Nat → List Nat → Nat → List ObsCall
  | NsTree.mk nm _ _ _ _ obs, [], cn, st =>
    obs.map (fun o => ⟨nm, cn, st, o.id⟩)
  | NsTree.mk nm ch _ _ _ obs, c :: rest, cn, st =>
    (match findChild ch c with
     | some child => expectedCalls child rest cn st
     | none => []) ++ obs.map (fun o => ⟨nm, cn, st, o.id⟩)

/-- No observer anywhere in the tree removes callbacks during dispatch. -/
inductive AllNoRemoves : NsTree → Prop where
  | mk {nm ch st d co obs} :
      (∀ o ∈ obs, o.removes = ([] : List Nat)) →
      (∀ p ∈ ch, AllNoRemoves (p : Nat × NsTree).2) →
      AllNoRemoves (NsTree.mk nm ch st d co obs)

/-! ## Namespace._findBestMatchName (namespace.py lines 475-505)

The longest-prefix search: children are visited in descending sorted key
order (`range(len(keys) - 1, -1, -1)`), a child match replaces the current
best when its name is at least as long, and only if no child matched is this
node's own data offered.  `matchesData` is `interest.matchesData`. -/

def updateBest (best cand : Option (List Nat)) : Option (List Nat) :=
  match cand with
  | none => best
  | some cb =>
    match best with
    | none => some cb
    | some b => if cb.length ≥ b.length then some cb else some b

/-- The `return namespace._name` fallback of `_findBestMatchName`: offer
this node's own name when it holds data accepted by the interest. -/
def ownData (matchesData : DataPacket → Bool) (nm : List Nat)
    (d : Option DataPacket) : Option (List Nat) :=
  match d with
  | some pkt => if matchesData pkt then some nm else none
  | none => none

mutual

def findBestMatchName (matchesData : DataPacket → Bool) : NsTree → Option (List Nat)
  | NsTree.mk nm ch _ d _ _ =>
    -- A child match, which is longer than this name, is returned if present;
    -- otherwise this node's own data is offered.
    (findBestLoop matchesData ch).elim (ownData matchesData nm d) some

/-- The descending scan over the sorted children: the recursion first folds
the tail (the larger keys, visited earlier) into the running best and then
lets the head (the smallest key, visited last) update it. -/
def findBestLoop (matchesData : DataPacket → Bool) : List (Nat × NsTree) → Option (List Nat)
  | [] => none
  | (_, u) :: rest => updateBest (findBestLoop matchesData rest) (findBestMatchName matchesData u)

end

/-! ## GeneralizedObjectStreamHandler

Name components as the handler sees them: generic (e.g. `_latest`, `_meta`),
sequence-number typed and version typed. -/

inductive NComp where
  | gen (s : String)
  | seqNo (n : Int)
  | version (v : Int)
deriving DecidableEq, Repr

def isSeqNoOpt : Option NComp → Bool
  | some (NComp.seqNo _) => true
  | _ => false

def toSeqNoOpt : Option NComp → Int
  | some (NComp.seqNo n) => n
  | _ => 0

def isVersionOpt : Option NComp → Bool
  | some (NComp.version _) => true
  | _ => false

/-- `name[-2]`. -/
def secondToLast (l : List NComp) : Option NComp := l.dropLast.getLast?

/-- A side effect requested from the transport collaborator:
`callLaterPullLatest d` is `face.callLater(d, lambda: latest.objectNeeded(True))`,
`pullLatestNow` is an immediate `latest.objectNeeded(True)`, and
`fetchObject s` starts a `GeneralizedObjectHandler` for sequence `s` and
calls `objectNeeded` on its `_meta` child. -/
inductive NetAction where
  | callLaterPullLatest (delayMilliseconds : Rat)
  | pullLatestNow
  | fetchObject (sequenceNumber : Int)
deriving DecidableEq, Repr

/-- The handler's own state (generalized_object_stream_handler.py lines
66-84).  `requested` models which sequence numbers already have a `_meta`
child holding data or with state at least `INTEREST_EXPRESSED` — the
condition under which `_requestNewSequenceNumbers` skips a number.  The
Python float freshness period is modelled as an exact rational; the claims
do not concern rounding. -/
structure Handler where
  pipelineSize : Int
  nsName : List NComp
  producedSequenceNumber : Int
  latestPacketFreshnessPeriod : Rat
  nRequestedSequenceNumbers : Int
  maxRequestedSequenceNumber : Int
  nReportedSequenceNumbers : Int
  maxReportedSequenceNumber : Int
  requested : List Int
deriving DecidableEq, Repr

/-- The constructor: a negative pipeline size is clamped to 0. -/
def initialHandler (pipelineSize : Int) (nsName : List NComp) : Handler :=
  { pipelineSize := if pipelineSize < 0 then 0 else pipelineSize
    nsName := nsName
    producedSequenceNumber := -1
    latestPacketFreshnessPeriod := 1000
    nRequestedSequenceNumbers := 0
    maxRequestedSequenceNumber := -1
    nReportedSequenceNumbers := 0
    maxReportedSequenceNumber := -1
    requested := [] }

/-- The name of `self._latestNamespace = self.namespace[NAME_COMPONENT_LATEST]`. -/
def latestName (h : Handler) : List NComp := h.nsName ++ [NComp.gen "_latest"]

/-- Monotonicity of filtering under pointwise implication of the predicates
(used only for the termination measure of `requestNewLoop`). -/
def lengthFilterMono : ∀ (R : List Int) (p q : Int → Bool),
    (∀ x, p x = true → q x = true) →
    (R.filter p).length ≤ (R.filter q).length := by
  intro R p q h
  induction R with
  | nil => simp
  | cons a rest ih =>
    by_cases hp : p a = true
    · simp [List.filter_cons, hp, h a hp]
      omega
    · simp only [List.filter_cons]
      rw [if_neg (by simp [hp])]
      by_cases hq : q a = true
      · rw [if_pos (by simp [hq])]
        simp
        omega
      · rw [if_neg (by simp [hq])]
        exact ih

/-- Passing the cursor over a member of `R` strictly shrinks the part of `R`
that is still ahead of the cursor (termination of `requestNewLoop`). -/
def lengthFilterSucc : ∀ (R : List Int) (c : Int), c + 1 ∈ R →
    (R.filter (fun x => decide (c + 1 < x))).length <
      (R.filter (fun x => decide (c < x))).length := by
  intro R c hmem
  induction R with
  | nil => simp at hmem
  | cons a rest ih =>
    rcases List.mem_cons.mp hmem with ha | ha
    · subst ha
      simp only [List.filter_cons]
      rw [if_neg (by simp)]
      rw [if_pos (by simp)]
      simp only [List.length_cons]
      have := lengthFilterMono rest (fun x => decide (c + 1 < x))
        (fun x => decide (c < x)) (by intro x hx; simp at hx; simp; omega)
      omega
    · have hrec := ih ha
      simp only [List.filter_cons]
      by_cases h1 : c + 1 < a
      · rw [if_pos (by simp [h1])]
        rw [if_pos (by simp; omega)]
        simp only [List.length_cons]
        omega
      · rw [if_neg (by simp [h1])]
        by_cases h2 : c < a
        · rw [if_pos (by simp [h2])]
          simp only [List.length_cons]
          omega
        · rw [if_neg (by simp [h2])]
          exact hrec

/-- The result of the request loop: final `_meta` request states, final
`_nRequestedSequenceNumbers` and `_maxRequestedSequenceNumber`, and the
newly requested sequence numbers in request order. -/
structure LoopOut where
  requested : List Int
  nRequested : Int
  maxRequested : Int
  newSeqs : List Int
deriving DecidableEq, Repr

/-- The `while nOutstandingSequenceNumbers < self._pipelineSize` loop of
`_requestNewSequenceNumbers` (lines 338-358): advance the cursor, skip
numbers already fetched or in flight, otherwise request. -/
def requestNewLoop (ps : Int) (R : List Int) (nOut nReq maxReq cursor : Int) : LoopOut :=
  if h1 : nOut < ps then
    if h2 : cursor + 1 ∈ R then
      -- Already got the data packet or already requested.
      requestNewLoop ps R nOut nReq maxReq (cursor + 1)
    else
      let out := requestNewLoop ps ((cursor + 1) :: R) (nOut + 1) (nReq + 1)
        (if cursor + 1 > maxReq then cursor + 1 else maxReq) (cursor + 1)
      { out with newSeqs := (cursor + 1) :: out.newSeqs }
  else
    { requested := R, nRequested := nReq, maxRequested := maxReq, newSeqs := [] }
termination_by ((ps - nOut).toNat, (R.filter (fun x => decide (cursor < x))).length)
decreasing_by
  · apply Prod.Lex.right
    exact lengthFilterSucc R cursor h2
  · apply Prod.Lex.left
    omega

/-- `_requestNewSequenceNumbers` (lines 331-358). -/
def requestNewSequenceNumbers (h : Handler) : Handler × List NetAction :=
  let nOutstandingSequenceNumbers :=
    h.nRequestedSequenceNumbers - h.nReportedSequenceNumbers
  let out := requestNewLoop h.pipelineSize h.requested nOutstandingSequenceNumbers
    h.nRequestedSequenceNumbers h.maxRequestedSequenceNumber h.maxReportedSequenceNumber
  ({ h with requested := out.requested,
            nRequestedSequenceNumbers := out.nRequested,
            maxRequestedSequenceNumber := out.maxRequested },
   out.newSeqs.map NetAction.fetchObject)

/-- The completion callback produced by `_makeOnGeneralizedObject`
(lines 360-377): bump `_nReportedSequenceNumbers`, advance
`_maxReportedSequenceNumber` if this is a new high-water mark, and in
pipelined mode keep the window full.  The application's
`onSequencedGeneralizedObject` notification (whose exceptions are caught
and logged there) carries no handler state and is omitted. -/
def onGeneralizedObject (h : Handler) (sequenceNumber : Int) : Handler :=
  let h1 := { h with
    nReportedSequenceNumbers := h.nReportedSequenceNumbers + 1
    maxReportedSequenceNumber :=
      if sequenceNumber > h.maxReportedSequenceNumber then sequenceNumber
      else h.maxReportedSequenceNumber }
  if h1.pipelineSize > 0 then (requestNewSequenceNumbers h1).1 else h1

/-- Apply a list of completion callbacks in arrival order. -/
def applyCompletions (h : Handler) (l : List Int) : Handler :=
  l.foldl onGeneralizedObject h

/-- `setObject` (lines 86-111): records the produced sequence number; the
construction of the object's packets is delegated to the external
`GeneralizedObjectHandler` collaborator at the sequence-numbered child and
is out of scope.  The handler is assumed attached to a namespace (the
unattached case raises before any mutation). -/
def setObject (h : Handler) (sequenceNumber : Int) : Handler :=
  { h with producedSequenceNumber := sequenceNumber }

/-- `addObject` (lines 113-126). -/
def addObject (h : Handler) : Handler :=
  setObject h (h.producedSequenceNumber + 1)

/-- `getProducedSequenceNumber` (lines 128-136). -/
def getProducedSequenceNumber (h : Handler) : Int :=
  h.producedSequenceNumber

/-- `setPipelineSize` (lines 166-185): clamp a negative size to 0, then
refuse to cross zero in either direction; the raise leaves the handler
unchanged. -/
def setPipelineSize (h : Handler) (pipelineSize : Int) : Handler × Option String :=
  let p := if pipelineSize < 0 then 0 else pipelineSize
  if p = 0 ∧ h.pipelineSize > 0 then
    (h, some "GeneralizedObjectStreamHandler.setPipelineSize: Cannot change the pipeline size from non-zero to zero")
  else if p > 0 ∧ h.pipelineSize = 0 then
    (h, some "GeneralizedObjectStreamHandler.setPipelineSize: Cannot change the pipeline size from zero to non-zero")
  else
    ({ h with pipelineSize := p }, none)

/-- `_onStateChanged` (lines 249-329).  Inputs from the changed namespace
node: its full name, the new state, its decoded `DelegationSet` content
(the wire decoding of the blob is modelled as already parsed; each entry is
its delegation name), and its Data packet's freshness period.
`targetHasObj s` tells whether `namespace[targetName].obj` is already set
for sequence `s` (the producer side may have it).  Equality with
`self._latestNamespace` is name equality, since nodes are unique per name in
one tree.  Returns the updated handler and the requested transport actions. -/
def onStateChangedH (h : Handler) (changedName : List NComp) (state : Nat)
    (delegations : List (List NComp)) (dataFreshnessPeriod : Option Rat)
    (targetHasObj : Int → Bool) : Handler × List NetAction :=
  if (state = interestTimeout ∨ state = interestNetworkNack) ∧
      changedName = latestName h then
    -- Timeout or network NACK, so try to fetch again after the freshness period.
    (h, [NetAction.callLaterPullLatest h.latestPacketFreshnessPeriod])
  else if (state = interestTimeout ∨ state = interestNetworkNack) ∧
      (h.pipelineSize > 0 ∧
       changedName.length = h.nsName.length + 2 ∧
       changedName.getLast? = some (NComp.gen "_meta") ∧
       isSeqNoOpt (secondToLast changedName) = true ∧
       toSeqNoOpt (secondToLast changedName) = h.maxRequestedSequenceNumber) then
    -- The highest pipelined request timed out, so request the _latest.
    (h, [NetAction.pullLatestNow])
  else if ¬ (state = objectReady ∧
             changedName.length = (latestName h).length + 1 ∧
             (latestName h).isPrefixOf changedName ∧
             isVersionOpt changedName.getLast? = true) then
    -- Not a versioned _latest, so ignore.
    (h, [])
  else
    match delegations with
    | [] => (h, [])
    | targetName :: _ =>
      if ¬ (h.nsName.isPrefixOf targetName ∧
            targetName.length = h.nsName.length + 1 ∧
            isSeqNoOpt targetName.getLast? = true) then
        -- Invalid target name: ignore.
        (h, [])
      else
        let sequenceNumber := toSeqNoOpt targetName.getLast?
        let step :=
          if targetHasObj sequenceNumber then (h, ([] : List NetAction))
          else
            if h.pipelineSize = 0 then
              -- Fetch one generalized object, unless already requested.
              if sequenceNumber ∈ h.requested then (h, [])
              else ({ h with requested := sequenceNumber :: h.requested },
                    [NetAction.fetchObject sequenceNumber])
            else
              -- Reset the pipeline in case we are resuming after a timeout.
              requestNewSequenceNumbers
                { h with maxReportedSequenceNumber := sequenceNumber - 1,
                         nRequestedSequenceNumbers := h.nReportedSequenceNumbers }
        let acts2 :=
          if h.pipelineSize = 0 then
            match dataFreshnessPeriod with
            | none => []
            | some f =>
              if f < 0 then []
              else [NetAction.callLaterPullLatest (f / 2)]
          else ([] : List NetAction)
        (step.1, step.2 ++ acts2)

/-! ## Concrete sample values used by witnesses and counterexamples -/

/-- A root node named `[0]` with no children, data or observers. -/
def sampleRoot : NsTree := NsTree.mk [0] [] nameExists none none []

/-- The handler state of a consumer with `pipelineSize = 3` right after its
`_onStateChanged` decoded a `_latest` redirect to sequence number 5
(lines 315-319 set `maxReported := 5 - 1` and `nRequested := nReported`)
but before `_requestNewSequenceNumbers` runs. -/
def c2Start : Handler :=
  { initialHandler 3 [] with maxReportedSequenceNumber := 4 }

/-- The same consumer after `_requestNewSequenceNumbers`: it has requested
sequence numbers 5, 6 and 7. -/
def c2Setup : Handler := (requestNewSequenceNumbers c2Start).1

/-- An interest-matching predicate that accepts every Data packet. -/
def matchesAll : DataPacket → Bool := fun _ => true

/-! ## Theorems: basic accessor reductions -/

@[simp] theorem NsTree.name_mk (nm ch st d co obs) :
    (NsTree.mk nm ch st d co obs).name = nm := rfl

@[simp] theorem NsTree.children_mk (nm ch st d co obs) :
    (NsTree.mk nm ch st d co obs).children = ch := rfl

@[simp] theorem NsTree.state_mk (nm ch st d co obs) :
    (NsTree.mk nm ch st d co obs).state = st := rfl

@[simp] theorem NsTree.data_mk (nm ch st d co obs) :
    (NsTree.mk nm ch st d co obs).data = d := rfl

@[simp] theorem NsTree.content_mk (nm ch st d co obs) :
    (NsTree.mk nm ch st d co obs).content = co := rfl

@[simp] theorem NsTree.observers_mk (nm ch st d co obs) :
    (NsTree.mk nm ch st d co obs).observers = obs := rfl

/-! ## Theorems: claims C4 and C10 about setData -/

/-- C4: `Namespace.setData` attaches a packet exactly once: on a node with no
attached data, a packet whose name differs from the node's name raises a
`RuntimeError` and leaves the node unmodified; a packet with the exactly
equal name sets `_data` and fires `DATA_RECEIVED` (followed by
`CONTENT_READY` when no transform hook is registered); a second `setData`
call on a node with attached data is a no-op that does not re-fire
`DATA_RECEIVED`. -/
theorem claim_C4_setData_once (t : NsTree) (transform : Bool) (d : DataPacket)
    (hdata : t.data = none) :
    (d.name ≠ t.name →
      setData t transform d =
        (t, [], some "The Data packet name does not equal the name of this Namespace node.")) ∧
    (d.name = t.name →
      (setData t transform d).2.2 = none ∧
      (setData t transform d).1.data = some d ∧
      (transform = false →
        (setData t transform d).2.1 = [(t.name, dataReceived), (t.name, contentReady)] ∧
        (setData t transform d).1.state = contentReady ∧
        (setData t transform d).1.content = some d.content) ∧
      (transform = true →
        (setData t transform d).2.1 = [(t.name, dataReceived)] ∧
        (setData t transform d).1.state = dataReceived) ∧
      (∀ transform' d', setData ((setData t transform d).1) transform' d' =
        ((setData t transform d).1, [], none))) := by
  rcases t with ⟨nm, ch, st, dat, co, obs⟩
  simp only [NsTree.data_mk] at hdata
  subst hdata
  constructor
  · intro hne
    simp only [NsTree.name_mk] at hne
    simp [setData, hne]
  · intro heq
    simp only [NsTree.name_mk] at heq
    rcases transform with _ | _ <;>
      simp [setData, heq, NsTree.data, NsTree.state, NsTree.content]

/-- Witness for C4 at a concrete node and packet. -/
theorem claim_C4_setData_once_witness :
    (setData (NsTree.mk [1] [] nameExists none none []) false ⟨[1], 7⟩).2.1 =
      [([1], dataReceived), ([1], contentReady)] := by
  have h := claim_C4_setData_once (NsTree.mk [1] [] nameExists none none [])
    false ⟨[1], 7⟩ (by rfl)
  exact ((h.2 rfl).2.2.1 rfl).1

/-- C10: on a node whose data is already attached, `setData` returns without
raising for every argument (the already-attached check precedes the
name-equality check), leaving `_data`, `_content` and `_state` unchanged and
firing no observers; the name-mismatch `RuntimeError` is only reachable when
no data is attached. -/
theorem claim_C10_setData_attached_frame :
    (∀ (t : NsTree) (transform : Bool) (d d0 : DataPacket),
      t.data = some d0 → setData t transform d = (t, [], none)) ∧
    (∀ (t : NsTree) (transform : Bool) (d : DataPacket),
      ((setData t transform d).2.2).isSome → t.data = none) := by
  constructor
  · intro t transform d d0 hdata
    rcases t with ⟨nm, ch, st, dat, co, obs⟩
    simp only [NsTree.data_mk] at hdata
    subst hdata
    simp [setData]
  · intro t transform d herr
    rcases t with ⟨nm, ch, st, dat, co, obs⟩
    rcases dat with _ | d0
    · rfl
    · simp [setData] at herr

/-- Witness for C10 at a concrete node holding data and a mismatched packet. -/
theorem claim_C10_setData_attached_frame_witness :
    setData (NsTree.mk [1] [] dataReceived (some ⟨[1], 5⟩) none []) false ⟨[2], 9⟩ =
      (NsTree.mk [1] [] dataReceived (some ⟨[1], 5⟩) none [], [], none) := by
  exact claim_C10_setData_attached_frame.1
    (NsTree.mk [1] [] dataReceived (some ⟨[1], 5⟩) none []) false ⟨[2], 9⟩ ⟨[1], 5⟩ rfl

/-! ## Theorems: children association-list lemmas -/

theorem Wf.child_name {nm ch st d co obs} (h : Wf (NsTree.mk nm ch st d co obs))
    {c : Nat} {u : NsTree} (hmem : (c, u) ∈ ch) : u.name = nm ++ [c] := by
  cases h with
  | mk h1 _ => exact h1 (c, u) hmem

theorem Wf.child_wf {nm ch st d co obs} (h : Wf (NsTree.mk nm ch st d co obs))
    {c : Nat} {u : NsTree} (hmem : (c, u) ∈ ch) : Wf u := by
  cases h with
  | mk _ h2 => exact h2 (c, u) hmem

theorem findChild_mem {ch : List (Nat × NsTree)} {c : Nat} {u : NsTree}
    (h : findChild ch c = some u) : (c, u) ∈ ch := by
  induction ch with
  | nil => simp [findChild] at h
  | cons p rest ih =>
    rcases p with ⟨k, v⟩
    by_cases hk : k = c
    · subst hk
      simp [findChild] at h
      subst h
      exact List.mem_cons_self _ _
    · simp [findChild, hk] at h
      exact List.mem_cons_of_mem _ (ih h)

theorem findChild_replaceChild_self {ch : List (Nat × NsTree)} {c : Nat}
    {u : NsTree} (h : findChild ch c = some u) (v : NsTree) :
    findChild (replaceChild ch c v) c = some v := by
  induction ch with
  | nil => simp [findChild] at h
  | cons p rest ih =>
    rcases p with ⟨k, w⟩
    by_cases hk : k = c
    · subst hk
      simp [replaceChild, findChild]
    · simp [findChild, hk] at h
      simp [replaceChild, findChild, hk, ih h]

theorem replaceChild_eq_self {ch : List (Nat × NsTree)} {c : Nat} {u : NsTree}
    (h : findChild ch c = some u) : replaceChild ch c u = ch := by
  induction ch with
  | nil => rfl
  | cons p rest ih =>
    rcases p with ⟨k, w⟩
    by_cases hk : k = c
    · subst hk
      simp [findChild] at h
      simp [replaceChild, h]
    · simp [findChild, hk] at h
      simp [replaceChild, hk, ih h]

theorem findChild_insertChild_self {ch : List (Nat × NsTree)} {c : Nat}
    (h : findChild ch c = none) (v : NsTree) :
    findChild (insertChild ch c v) c = some v := by
  induction ch with
  | nil => simp [insertChild, findChild]
  | cons p rest ih =>
    rcases p with ⟨k, w⟩
    by_cases hk : k = c
    · subst hk
      simp [findChild] at h
    · simp [findChild, hk] at h
      by_cases hlt : c < k
      · simp [insertChild, hlt, findChild]
      · simp [insertChild, hlt, findChild, hk, ih h]

theorem mem_replaceChild {ch : List (Nat × NsTree)} {c : Nat} {v : NsTree}
    {p : Nat × NsTree} (h : p ∈ replaceChild ch c v) :
    p ∈ ch ∨ p = (c, v) := by
  induction ch with
  | nil => simp [replaceChild] at h
  | cons q rest ih =>
    rcases q with ⟨k, w⟩
    by_cases hk : k = c
    · subst hk
      simp [replaceChild] at h
      rcases h with h | h
      · right; rw [h]
      · left; exact List.mem_cons_of_mem _ h
    · simp [replaceChild, hk] at h
      rcases h with h | h
      · left; simp [h]
      · rcases ih h with h' | h'
        · left; exact List.mem_cons_of_mem _ h'
        · right; exact h'

theorem mem_insertChild {ch : List (Nat × NsTree)} {c : Nat} {v : NsTree}
    {p : Nat × NsTree} (h : p ∈ insertChild ch c v) :
    p ∈ ch ∨ p = (c, v) := by
  induction ch with
  | nil =>
    simp [insertChild] at h
    right; rw [h]
  | cons q rest ih =>
    rcases q with ⟨k, w⟩
    by_cases hlt : c < k
    · simp [insertChild, hlt] at h
      rcases h with h | h | h
      · right; rw [h]
      · left; simp [h]
      · left; exact List.mem_cons_of_mem _ h
    · simp [insertChild, hlt] at h
      rcases h with h | h
      · left; simp [h]
      · rcases ih h with h' | h'
        · left; exact List.mem_cons_of_mem _ h'
        · right; exact h'

/-! ## Theorems: the getChild walk and claim C3 -/

theorem getChildWalk_nil (t : NsTree) : getChildWalk t [] = (t, t, []) := by
  cases t
  rfl

theorem getChildWalk_cons_found {nm ch st d co obs c rest child}
    (h : findChild ch c = some child) :
    getChildWalk (NsTree.mk nm ch st d co obs) (c :: rest) =
      (NsTree.mk nm (replaceChild ch c (getChildWalk child rest).1) st d co obs,
       (getChildWalk child rest).2.1, (getChildWalk child rest).2.2) := by
  simp [getChildWalk, h]

theorem getChildWalk_cons_leaf {nm ch st d co obs c}
    (h : findChild ch c = none) :
    getChildWalk (NsTree.mk nm ch st d co obs) [c] =
      (NsTree.mk nm
        (insertChild ch c (NsTree.mk (nm ++ [c]) [] nameExists none none []))
        nameExists d co obs,
       NsTree.mk (nm ++ [c]) [] nameExists none none [],
       [(nm, nameExists)]) := by
  simp [getChildWalk, h]

theorem getChildWalk_cons_inter {nm ch st d co obs c rest}
    (h : findChild ch c = none) (hne : rest ≠ []) :
    getChildWalk (NsTree.mk nm ch st d co obs) (c :: rest) =
      (NsTree.mk nm
        (insertChild ch c
          (getChildWalk (NsTree.mk (nm ++ [c]) [] nameExists none none []) rest).1)
        st d co obs,
       (getChildWalk (NsTree.mk (nm ++ [c]) [] nameExists none none []) rest).2.1,
       (getChildWalk (NsTree.mk (nm ++ [c]) [] nameExists none none []) rest).2.2) := by
  simp [getChildWalk, h, hne]

theorem lookupPath_cons {nm ch st d co obs c rest} :
    lookupPath (NsTree.mk nm ch st d co obs) (c :: rest) =
      match findChild ch c with
      | some child => lookupPath child rest
      | none => none := by
  simp [lookupPath]

/-- The combined specification of the get-or-create walk: the root keeps its
name, the returned node carries the full descendant name, well-formedness is
preserved, the returned node is reachable from the root along the walked
components, the fired events are empty when the leaf already existed and
exactly one `NAME_EXISTS` event otherwise — fired by `_createChild` on the
new leaf's immediate parent (whose state is reset to `NAME_EXISTS`) — and a
second walk along the same components changes nothing and fires nothing. -/
theorem getChildWalk_spec : ∀ (rest : List Nat) (t : NsTree), Wf t →
    (getChildWalk t rest).1.name = t.name ∧
    (getChildWalk t rest).2.1.name = t.name ++ rest ∧
    Wf (getChildWalk t rest).1 ∧
    lookupPath (getChildWalk t rest).1 rest = some (getChildWalk t rest).2.1 ∧
    (getChildWalk t rest).2.2 =
      (if (lookupPath t rest).isSome then []
       else [((t.name ++ rest).dropLast, nameExists)]) ∧
    getChildWalk (getChildWalk t rest).1 rest =
      ((getChildWalk t rest).1, (getChildWalk t rest).2.1, []) ∧
    (lookupPath t rest = none →
      ∃ p, lookupPath (getChildWalk t rest).1 rest.dropLast = some p ∧
        p.state = nameExists) := by
  intro rest
  induction rest with
  | nil =>
    intro t hwf
    simp [getChildWalk_nil, lookupPath, hwf]
  | cons c rest ih =>
    rintro ⟨nm, ch, st, d, co, obs⟩ hwf
    cases h : findChild ch c with
    | some child =>
      have hname : child.name = nm ++ [c] := hwf.child_name (findChild_mem h)
      have hcwf : Wf child := hwf.child_wf (findChild_mem h)
      obtain ⟨ih1, ih2, ih3, ih4, ih5, ih6, ih7⟩ := ih child hcwf
      rw [getChildWalk_cons_found h]
      have hfr := findChild_replaceChild_self h (getChildWalk child rest).1
      refine ⟨rfl, ?_, ?_, ?_, ?_, ?_, ?_⟩
      · rw [ih2, hname]
        simp
      · refine Wf.mk ?_ ?_ <;> intro p hp <;> rcases mem_replaceChild hp with hp' | hp'
        · exact hwf.child_name hp'
        · rw [hp']
          rw [ih1, hname]
        · exact hwf.child_wf hp'
        · rw [hp']
          exact ih3
      · rw [lookupPath_cons, hfr]
        exact ih4
      · rw [lookupPath_cons, h, ih5, hname]
        simp
      · rw [getChildWalk_cons_found hfr, ih6, replaceChild_eq_self hfr]
      · intro hnone
        rw [lookupPath_cons, h] at hnone
        have hrne : rest ≠ [] := by
          intro he
          subst he
          simp [lookupPath] at hnone
        obtain ⟨p, hp1, hp2⟩ := ih7 hnone
        refine ⟨p, ?_, hp2⟩
        rw [List.dropLast_cons_of_ne_nil hrne, lookupPath_cons, hfr]
        exact hp1
    | none =>
      cases rest with
      | nil =>
        rw [getChildWalk_cons_leaf h]
        have hfi := findChild_insertChild_self h
          (NsTree.mk (nm ++ [c]) [] nameExists none none [])
        refine ⟨rfl, rfl, ?_, ?_, ?_, ?_, ?_⟩
        · refine Wf.mk ?_ ?_ <;> intro p hp <;> rcases mem_insertChild hp with hp' | hp'
          · exact hwf.child_name hp'
          · rw [hp']
            rfl
          · exact hwf.child_wf hp'
          · rw [hp']
            refine Wf.mk ?_ ?_ <;> intro q hq <;> simp at hq
        · rw [lookupPath_cons, hfi]
          rfl
        · rw [lookupPath_cons, h]
          simp [List.dropLast_concat]
        · rw [getChildWalk_cons_found hfi, getChildWalk_nil, replaceChild_eq_self hfi]
        · intro hno
          exact ⟨NsTree.mk nm
            (insertChild ch c (NsTree.mk (nm ++ [c]) [] nameExists none none []))
            nameExists d co obs, rfl, rfl⟩
      | cons c2 rest2 =>
        have hnwf : Wf (NsTree.mk (nm ++ [c]) [] nameExists none none []) := by
          refine Wf.mk ?_ ?_ <;> intro p hp <;> simp at hp
        obtain ⟨ih1, ih2, ih3, ih4, ih5, ih6, ih7⟩ :=
          ih (NsTree.mk (nm ++ [c]) [] nameExists none none []) hnwf
        rw [getChildWalk_cons_inter h (by simp)]
        have hfi := findChild_insertChild_self h
          (getChildWalk (NsTree.mk (nm ++ [c]) [] nameExists none none [])
            (c2 :: rest2)).1
        have hnone2 : lookupPath (NsTree.mk (nm ++ [c]) [] nameExists none none [])
            (c2 :: rest2) = none := by
          simp [lookupPath_cons, findChild]
        refine ⟨rfl, ?_, ?_, ?_, ?_, ?_, ?_⟩
        · rw [ih2]
          simp
        · refine Wf.mk ?_ ?_ <;> intro p hp <;> rcases mem_insertChild hp with hp' | hp'
          · exact hwf.child_name hp'
          · rw [hp']
            rw [ih1]
            simp
          · exact hwf.child_wf hp'
          · rw [hp']
            exact ih3
        · rw [lookupPath_cons, hfi]
          exact ih4
        · rw [lookupPath_cons, h, ih5, hnone2]
          simp
        · rw [getChildWalk_cons_found hfi, ih6, replaceChild_eq_self hfi]
        · intro _
          obtain ⟨p, hp1, hp2⟩ := ih7 hnone2
          refine ⟨p, ?_, hp2⟩
          rw [List.dropLast_cons_of_ne_nil (by simp), lookupPath_cons, hfi]
          exact hp1

/-- C3: for every name `B` extending node `A`\'s name, `getChild(B)` creates
the missing nodes so that the returned node carries name `B` and is reached
from the root (named exactly `A`) along the remaining components; creating
intermediate ancestors fires no state-change callbacks and only the creation
of the final leaf fires them, with state `NAME_EXISTS` — `_createChild` runs
`_setState(NAME_EXISTS)` on the leaf\'s immediate parent, so the single event
carries the parent\'s name `B.dropLast` and that parent\'s state is reset to
`NAME_EXISTS` (no events at all when the leaf already existed); a repeated
call returns the same node from the unchanged tree firing nothing.  If `A`\'s
name is not a prefix of `B`, `getChild` raises a `RuntimeError` and creates
no nodes. -/
theorem claim_C3_getChild (t : NsTree) (B : List Nat) (hwf : Wf t) :
    (t.name.isPrefixOf B = true →
      (getChildByName t B).2.2.2 = none ∧
      (getChildByName t B).1.name = t.name ∧
      (getChildByName t B).2.1.name = B ∧
      lookupPath (getChildByName t B).1 (B.drop t.name.length) =
        some (getChildByName t B).2.1 ∧
      (getChildByName t B).2.2.1 =
        (if (lookupPath t (B.drop t.name.length)).isSome then []
         else [(B.dropLast, nameExists)]) ∧
      (lookupPath t (B.drop t.name.length) = none →
        ∃ p, lookupPath (getChildByName t B).1 ((B.drop t.name.length).dropLast) =
            some p ∧ p.state = nameExists) ∧
      getChildByName (getChildByName t B).1 B =
        ((getChildByName t B).1, (getChildByName t B).2.1, [], none)) ∧
    (t.name.isPrefixOf B = false →
      getChildByName t B =
        (t, t, [], some "The name of this node is not a prefix of the descendant name")) := by
  constructor
  · intro hp
    have hpre : t.name <+: B := List.isPrefixOf_iff_prefix.mp hp
    obtain ⟨s, hs⟩ := hpre
    have hdrop : B.drop t.name.length = s := by
      rw [← hs, List.drop_left]
    obtain ⟨h1, h2, h3, h4, h5, h6, h7⟩ := getChildWalk_spec s t hwf
    have hunfold : getChildByName t B =
        ((getChildWalk t s).1, (getChildWalk t s).2.1, (getChildWalk t s).2.2, none) := by
      rw [getChildByName, if_pos (by rw [hp])]
      rw [hdrop]
    refine ⟨by rw [hunfold], by rw [hunfold]; exact h1, ?_, ?_, ?_, ?_, ?_⟩
    · rw [hunfold]
      rw [h2, ← hs]
    · rw [hunfold, hdrop]
      exact h4
    · rw [hunfold, hdrop, h5, ← hs]
    · rw [hunfold, hdrop]
      exact h7
    · rw [hunfold]
      have hp2 : (getChildWalk t s).1.name.isPrefixOf B = true := by
        rw [h1]
        exact hp
      rw [getChildByName, if_pos (by rw [hp2]), h1, hdrop, h6]
  · intro hp
    rw [getChildByName, if_neg (by rw [hp]; exact (by simp))]

/-- Witness for C3: from the root named `[0]`, getting `[0, 1, 2]` fires
exactly one event, `NAME_EXISTS` at the leaf\'s parent `[0, 1]`, and a
non-extending name errors. -/
theorem claim_C3_getChild_witness :
    (getChildByName sampleRoot [0, 1, 2]).2.2.1 = [([0, 1], nameExists)] ∧
    getChildByName sampleRoot [5] =
      (sampleRoot, sampleRoot, [],
       some "The name of this node is not a prefix of the descendant name") := by
  have hwf : Wf sampleRoot := by
    refine Wf.mk ?_ ?_ <;> intro p hp <;> simp [sampleRoot] at hp
  constructor
  · have h := ((claim_C3_getChild sampleRoot [0, 1, 2] hwf).1 (by rfl)).2.2.2.2.1
    rw [h]
    rw [if_neg]
    · rfl
    simp [sampleRoot, lookupPath, findChild]
  · exact (claim_C3_getChild sampleRoot [5] hwf).2 (by rfl)

/-! ## Theorems: observer dispatch and claim C5 -/

theorem removeIds_nil (obs : List Observer) : removeIds obs [] = obs := by
  simp [removeIds]

theorem AllNoRemoves.obs_clean {nm ch st d co obs}
    (h : AllNoRemoves (NsTree.mk nm ch st d co obs)) :
    ∀ o ∈ obs, o.removes = ([] : List Nat) := by
  cases h with
  | mk h1 _ => exact h1

theorem AllNoRemoves.child {nm ch st d co obs}
    (h : AllNoRemoves (NsTree.mk nm ch st d co obs))
    {c : Nat} {u : NsTree} (hmem : (c, u) ∈ ch) : AllNoRemoves u := by
  cases h with
  | mk _ h2 => exact h2 (c, u) hmem

/-- Every delivered call carries the dispatching node's name, the changed
name and the state it was fired with. -/
theorem fireLoop_fields (sn cn : List Nat) (st : Nat) :
    ∀ (ids : List Nat) (obs : List Observer) (call : ObsCall),
      call ∈ (fireLoop sn cn st ids obs).1 →
      call.nsName = sn ∧ call.changedName = cn ∧ call.state = st := by
  intro ids
  induction ids with
  | nil =>
    intro obs call h
    simp [fireLoop] at h
  | cons i rest ih =>
    intro obs call h
    simp only [fireLoop] at h
    cases hf : List.find? (fun o => o.id == i) obs with
    | none =>
      rw [hf] at h
      exact ih obs call h
    | some o =>
      rw [hf] at h
      simp only [List.mem_cons] at h
      rcases h with h | h
      · subst h
        exact ⟨rfl, rfl, rfl⟩
      · exact ih _ call h

/-- When no observer removes callbacks, the snapshot loop delivers one call
per snapshot id, in snapshot order. -/
theorem fireLoop_no_removes (sn cn : List Nat) (st : Nat) :
    ∀ (ids : List Nat) (obs : List Observer),
      (∀ o ∈ obs, o.removes = ([] : List Nat)) →
      (∀ i ∈ ids, ∃ o ∈ obs, o.id = i) →
      (fireLoop sn cn st ids obs).1 =
        ids.map (fun i => ⟨sn, cn, st, i⟩) := by
  intro ids
  induction ids with
  | nil =>
    intro obs _ _
    simp [fireLoop]
  | cons i rest ih =>
    intro obs hrem hid
    obtain ⟨o, ho, hoi⟩ := hid i (by simp)
    cases hf : List.find? (fun o => o.id == i) obs with
    | none =>
      rw [List.find?_eq_none] at hf
      exact absurd (by simp [hoi]) (hf o ho)
    | some o' =>
      have ho' : o' ∈ obs := List.mem_of_find?_eq_some hf
      simp only [fireLoop]
      rw [hf]
      simp only [invokeObserver, hrem o' ho', removeIds_nil]
      rw [ih obs hrem (fun j hj => hid j (by simp [hj]))]
      simp

/-- `_fireOnStateChanged` with no removals delivers exactly one call per
registered observer, in registration order. -/
theorem fireOnStateChanged_no_removes (sn cn : List Nat) (st : Nat)
    (obs : List Observer) (hrem : ∀ o ∈ obs, o.removes = ([] : List Nat)) :
    (fireOnStateChanged sn cn st obs).1 =
      obs.map (fun o => ⟨sn, cn, st, o.id⟩) := by
  rw [fireOnStateChanged, fireLoop_no_removes sn cn st _ obs hrem]
  · rw [List.map_map]
    rfl
  · intro i hi
    simp only [List.mem_map] at hi
    obtain ⟨o, ho, hoi⟩ := hi
    exact ⟨o, ho, hoi⟩

theorem setStateAt_nil {nm ch st0 d co obs st} :
    setStateAt (NsTree.mk nm ch st0 d co obs) [] st =
      some (NsTree.mk nm ch st d co (fireOnStateChanged nm nm st obs).2,
            (fireOnStateChanged nm nm st obs).1, nm) := by
  simp [setStateAt]

theorem setStateAt_cons_found {nm ch st0 d co obs c rest st child r}
    (hf : findChild ch c = some child) (hr : setStateAt child rest st = some r) :
    setStateAt (NsTree.mk nm ch st0 d co obs) (c :: rest) st =
      some (NsTree.mk nm (replaceChild ch c r.1) st0 d co
              (fireOnStateChanged nm r.2.2 st obs).2,
            r.2.1 ++ (fireOnStateChanged nm r.2.2 st obs).1, r.2.2) := by
  simp [setStateAt, hf, hr]

/-- Part A of C5: on a well-formed tree, `_setState` reports the changed
node's full name and every delivered call carries the changed name, the new
state, and the name of an ancestor-or-self of the changed node (a node on
the path from the root) — never a descendant or unrelated node. -/
theorem setStateAt_calls : ∀ (path : List Nat) (t : NsTree) (st : Nat) r,
    Wf t → setStateAt t path st = some r →
    r.2.2 = t.name ++ path ∧
    ∀ call ∈ r.2.1, call.changedName = t.name ++ path ∧ call.state = st ∧
      ∃ k, k ≤ path.length ∧ call.nsName = t.name ++ path.take k := by
  intro path
  induction path with
  | nil =>
    rintro ⟨nm, ch, st0, d, co, obs⟩ st r _ hset
    rw [setStateAt_nil] at hset
    replace hset := (Option.some.inj hset).symm
    subst hset
    refine ⟨by simp, ?_⟩
    intro call hc
    obtain ⟨h1, h2, h3⟩ := fireLoop_fields nm nm st _ obs call hc
    exact ⟨by simp [h2], h3, 0, by simp, by simp [h1]⟩
  | cons c rest ih =>
    rintro ⟨nm, ch, st0, d, co, obs⟩ st r hwf hset
    cases hf : findChild ch c with
    | none => simp [setStateAt, hf] at hset
    | some child =>
      cases hrec : setStateAt child rest st with
      | none => simp [setStateAt, hf, hrec] at hset
      | some rr =>
        rw [setStateAt_cons_found hf hrec] at hset
        replace hset := (Option.some.inj hset).symm
        subst hset
        have hname := hwf.child_name (findChild_mem hf)
        obtain ⟨ihn, ihc⟩ := ih child st rr (hwf.child_wf (findChild_mem hf)) hrec
        have hfull : rr.2.2 = nm ++ c :: rest := by
          rw [ihn, hname]
          simp
        refine ⟨by simpa using hfull, ?_⟩
        intro call hc
        simp only [List.mem_append] at hc
        rcases hc with hc | hc
        · obtain ⟨h1, h2, ⟨k, hk, h3⟩⟩ := ihc call hc
          refine ⟨?_, h2, k + 1, by simpa using hk, ?_⟩
          · rw [h1, hname]
            simp
          · rw [h3, hname]
            simp [List.take_cons]
        · obtain ⟨h1, h2, h3⟩ := fireLoop_fields nm rr.2.2 st _ obs call hc
          refine ⟨by rw [h2]; simpa using hfull, h3, 0, by simp, by simp [h1]⟩

/-- Part B of C5: when no observer removes callbacks during dispatch,
`_setState` delivers exactly one call to every observer registered at the
changed node and at each of its ancestors up to the root (and to no other
node), child first, in registration order. -/
theorem setStateAt_expected : ∀ (path : List Nat) (t : NsTree) (st : Nat) r,
    AllNoRemoves t → setStateAt t path st = some r →
    r.2.1 = expectedCalls t path r.2.2 st := by
  intro path
  induction path with
  | nil =>
    rintro ⟨nm, ch, st0, d, co, obs⟩ st r hnr hset
    rw [setStateAt_nil] at hset
    replace hset := (Option.some.inj hset).symm
    subst hset
    simp only [expectedCalls]
    exact fireOnStateChanged_no_removes nm nm st obs hnr.obs_clean
  | cons c rest ih =>
    rintro ⟨nm, ch, st0, d, co, obs⟩ st r hnr hset
    cases hf : findChild ch c with
    | none => simp [setStateAt, hf] at hset
    | some child =>
      cases hrec : setStateAt child rest st with
      | none => simp [setStateAt, hf, hrec] at hset
      | some rr =>
        rw [setStateAt_cons_found hf hrec] at hset
        replace hset := (Option.some.inj hset).symm
        subst hset
        simp only [expectedCalls, hf]
        rw [ih child st rr (hnr.child (findChild_mem hf)) hrec]
        rw [fireOnStateChanged_no_removes nm rr.2.2 st obs hnr.obs_clean]

/-- Part C of C5: the id snapshot is taken before iterating, so an observer
that an earlier observer removed during the same dispatch is skipped, while
the earlier observer itself is delivered. -/
theorem fire_skip_removed (sn cn : List Nat) (st : Nat) (x y : Observer)
    (hy : y.id ∈ x.removes) (hx : x.id ∉ x.removes) :
    (fireOnStateChanged sn cn st [x, y]).1 = [⟨sn, cn, st, x.id⟩] := by
  have hne : (x.id == y.id) = false := by
    rw [beq_eq_false_iff_ne]
    intro h
    rw [h] at hx
    exact hx hy
  simp [fireOnStateChanged, fireLoop, invokeObserver, removeIds,
    List.find?, hne, hx, hy]

theorem find?_id_map_raises (f : Nat → Bool) (i : Nat) :
    ∀ obs : List Observer,
      List.find? (fun o => o.id == i)
          (obs.map (fun o => { o with raises := f o.id })) =
        (List.find? (fun o => o.id == i) obs).map
          (fun o => { o with raises := f o.id }) := by
  intro obs
  induction obs with
  | nil => rfl
  | cons o rest ih =>
    by_cases hi : (o.id == i) = true
    · simp [List.find?, hi]
    · simp only [Bool.not_eq_true] at hi
      simp [List.find?, hi, ih]

theorem removeIds_map_raises (f : Nat → Bool) (ids : List Nat) :
    ∀ obs : List Observer,
      removeIds (obs.map (fun o => { o with raises := f o.id })) ids =
        (removeIds obs ids).map (fun o => { o with raises := f o.id }) := by
  intro obs
  induction obs with
  | nil => rfl
  | cons o rest ih =>
    by_cases hm : ids.contains o.id = true
    · simp only [removeIds, List.map_cons, List.filter] at ih ⊢
      rw [hm]
      simpa using ih
    · simp only [Bool.not_eq_true] at hm
      simp only [removeIds, List.map_cons, List.filter] at ih ⊢
      rw [hm]
      simpa using ih

/-- Part D of C5: which calls are delivered does not depend on which
observers raise exceptions — the dispatcher catches them and continues. -/
theorem fireLoop_raises_invariant (sn cn : List Nat) (st : Nat) (f : Nat → Bool) :
    ∀ (ids : List Nat) (obs : List Observer),
      (fireLoop sn cn st ids (obs.map (fun o => { o with raises := f o.id }))).1 =
        (fireLoop sn cn st ids obs).1 := by
  intro ids
  induction ids with
  | nil =>
    intro obs
    simp [fireLoop]
  | cons i rest ih =>
    intro obs
    simp only [fireLoop, find?_id_map_raises]
    cases hf : List.find? (fun o => o.id == i) obs with
    | none => simpa using ih obs
    | some o => simp [invokeObserver, removeIds_map_raises, ih]

theorem fireOnStateChanged_raises_invariant (sn cn : List Nat) (st : Nat)
    (obs : List Observer) (f : Nat → Bool) :
    (fireOnStateChanged sn cn st (obs.map (fun o => { o with raises := f o.id }))).1 =
      (fireOnStateChanged sn cn st obs).1 := by
  rw [fireOnStateChanged, fireOnStateChanged]
  have hids : (obs.map (fun o => { o with raises := f o.id })).map
      (fun o => o.id) = obs.map (fun o => o.id) := by
    rw [List.map_map]
    rfl
  rw [hids, fireLoop_raises_invariant]

/-- C5: setting a node's state invokes the observers registered at that node
and at every ancestor up to the root (never at any descendant), each
receiving (observer's namespace, changed node, new state, observer id); the
observer-id set is snapshot-copied before iterating so an observer removed
during the same dispatch is skipped; and an exception raised by one observer
is caught and logged without preventing delivery to the remaining observers
or to ancestors (the delivered calls are independent of which observers
raise, and delivery along the ancestor chain holds for arbitrary `raises`
flags). -/
theorem claim_C5_setState_observers :
    (∀ (t : NsTree) (path : List Nat) (st : Nat) r, Wf t →
      setStateAt t path st = some r →
      r.2.2 = t.name ++ path ∧
      ∀ call ∈ r.2.1, call.changedName = t.name ++ path ∧ call.state = st ∧
        ∃ k, k ≤ path.length ∧ call.nsName = t.name ++ path.take k) ∧
    (∀ (t : NsTree) (path : List Nat) (st : Nat) r, AllNoRemoves t →
      setStateAt t path st = some r →
      r.2.1 = expectedCalls t path r.2.2 st) ∧
    (∀ (sn cn : List Nat) (st : Nat) (x y : Observer),
      y.id ∈ x.removes → x.id ∉ x.removes →
      (fireOnStateChanged sn cn st [x, y]).1 = [⟨sn, cn, st, x.id⟩]) ∧
    (∀ (sn cn : List Nat) (st : Nat) (obs : List Observer) (f : Nat → Bool),
      (fireOnStateChanged sn cn st
          (obs.map (fun o => { o with raises := f o.id }))).1 =
        (fireOnStateChanged sn cn st obs).1) :=
  ⟨fun t path st r hwf h => setStateAt_calls path t st r hwf h,
   fun t path st r hnr h => setStateAt_expected path t st r hnr h,
   fire_skip_removed,
   fireOnStateChanged_raises_invariant⟩

/-- Witness for C5 on a two-level tree with one observer per level. -/
theorem claim_C5_setState_observers_witness :
    ([⟨[0, 1], [0, 1], dataReceived, 2⟩, ⟨[0], [0, 1], dataReceived, 1⟩] : List ObsCall) =
      expectedCalls
        (NsTree.mk [0] [(1, NsTree.mk [0, 1] [] nameExists none none [⟨2, [], false⟩])]
          nameExists none none [⟨1, [], false⟩])
        [1] [0, 1] dataReceived ∧
    ([0, 1] : List Nat) =
      (NsTree.mk [0] [(1, NsTree.mk [0, 1] [] nameExists none none [⟨2, [], false⟩])]
        nameExists none none [⟨1, [], false⟩]).name ++ [1] ∧
    (fireOnStateChanged [0] [0] contentReady [⟨1, [2], false⟩, ⟨2, [], true⟩]).1 =
      [⟨[0], [0], contentReady, 1⟩] ∧
    (fireOnStateChanged [0] [0] contentReady
        (([⟨1, [], false⟩, ⟨2, [], true⟩] : List Observer).map
          (fun o => { o with raises := true }))).1 =
      (fireOnStateChanged [0] [0] contentReady [⟨1, [], false⟩, ⟨2, [], true⟩]).1 := by
  have hwf : Wf (NsTree.mk [0]
      [(1, NsTree.mk [0, 1] [] nameExists none none [⟨2, [], false⟩])]
      nameExists none none [⟨1, [], false⟩]) := by
    refine Wf.mk ?_ ?_ <;> intro p hp <;> simp at hp <;> rw [hp]
    · rfl
    · refine Wf.mk ?_ ?_ <;> intro q hq <;> simp at hq
  have hnr : AllNoRemoves (NsTree.mk [0]
      [(1, NsTree.mk [0, 1] [] nameExists none none [⟨2, [], false⟩])]
      nameExists none none [⟨1, [], false⟩]) := by
    refine AllNoRemoves.mk ?_ ?_
    · intro o ho
      simp at ho
      rw [ho]
    · intro p hp
      simp at hp
      rw [hp]
      refine AllNoRemoves.mk ?_ ?_
      · intro o ho
        simp at ho
        rw [ho]
      · intro q hq
        simp at hq
  have hset : setStateAt (NsTree.mk [0]
      [(1, NsTree.mk [0, 1] [] nameExists none none [⟨2, [], false⟩])]
      nameExists none none [⟨1, [], false⟩]) [1] dataReceived =
      some (NsTree.mk [0]
        [(1, NsTree.mk [0, 1] [] dataReceived none none [⟨2, [], false⟩])]
        nameExists none none [⟨1, [], false⟩],
        [⟨[0, 1], [0, 1], dataReceived, 2⟩, ⟨[0], [0, 1], dataReceived, 1⟩],
        [0, 1]) := rfl
  refine ⟨?_, ?_, ?_, ?_⟩
  · exact claim_C5_setState_observers.2.1 _ [1] dataReceived _ hnr hset
  · exact (claim_C5_setState_observers.1 _ [1] dataReceived _ hwf hset).1
  · exact claim_C5_setState_observers.2.2.1 [0] [0] contentReady
      ⟨1, [2], false⟩ ⟨2, [], true⟩ (by decide) (by decide)
  · exact claim_C5_setState_observers.2.2.2 [0] [0] contentReady
      [⟨1, [], false⟩, ⟨2, [], true⟩] (fun _ => true)

/-! ## Theorems: longest-prefix resolution and claim C1 -/

theorem findBestMatchName_mk (md : DataPacket → Bool) (nm ch st d co obs) :
    findBestMatchName md (NsTree.mk nm ch st d co obs) =
      (findBestLoop md ch).elim (ownData md nm d) some := by
  rw [findBestMatchName]

theorem findBestLoop_nil (md : DataPacket → Bool) : findBestLoop md [] = none := by
  rw [findBestLoop]

theorem findBestLoop_cons (md : DataPacket → Bool) (k : Nat) (u : NsTree)
    (rest : List (Nat × NsTree)) :
    findBestLoop md ((k, u) :: rest) =
      updateBest (findBestLoop md rest) (findBestMatchName md u) := by
  rw [findBestLoop]

theorem updateBest_cases {best cand m} (h : updateBest best cand = some m) :
    best = some m ∨ cand = some m := by
  rcases cand with _ | cb
  · left
    exact h
  · rcases best with _ | bb
    · right
      exact h
    · rw [updateBest] at h
      by_cases hlen : cb.length ≥ bb.length
      · rw [if_pos hlen] at h
        right
        exact h
      · rw [if_neg hlen] at h
        left
        exact h

/-- Any result of the child scan is the best match of some child subtree. -/
theorem findBestLoop_mem (md : DataPacket → Bool) :
    ∀ (ch : List (Nat × NsTree)) (m : List Nat), findBestLoop md ch = some m →
      ∃ p ∈ ch, findBestMatchName md p.2 = some m := by
  intro ch
  induction ch with
  | nil =>
    intro m h
    rw [findBestLoop_nil] at h
    exact absurd h (by simp)
  | cons p rest ih =>
    rcases p with ⟨k, u⟩
    intro m h
    rw [findBestLoop_cons] at h
    rcases updateBest_cases h with h' | h'
    · obtain ⟨q, hq, hq2⟩ := ih m h'
      exact ⟨q, List.mem_cons_of_mem _ hq, hq2⟩
    · exact ⟨(k, u), List.mem_cons_self _ _, h'⟩

/-- If all sibling matches have the same length and `c` is the smallest
component whose subtree matches, the descending scan with its `≥`
replacement returns that subtree's match. -/
theorem findBestLoop_min (md : DataPacket → Bool) :
    ∀ (ch : List (Nat × NsTree)) (c : Nat) (u : NsTree) (m : List Nat),
      (ch.map Prod.fst).Pairwise (· < ·) →
      (c, u) ∈ ch →
      findBestMatchName md u = some m →
      (∀ p ∈ ch, ∀ m', findBestMatchName md p.2 = some m' → m'.length = m.length) →
      (∀ p ∈ ch, p.1 < c → findBestMatchName md p.2 = none) →
      findBestLoop md ch = some m := by
  intro ch
  induction ch with
  | nil =>
    intro c u m _ hmem
    exact absurd hmem (by simp)
  | cons p rest ih =>
    rcases p with ⟨k, u0⟩
    intro c u m hsort hmem hmatch heq hmin
    have hsort' : (∀ (a' : Nat) (x : NsTree), (a', x) ∈ rest → k < a') ∧
        (rest.map Prod.fst).Pairwise (· < ·) := by
      simpa using hsort
    rw [findBestLoop_cons]
    rcases List.mem_cons.mp hmem with hhead | htail
    · injection hhead with hk hu
      subst hk
      subst hu
      rw [hmatch]
      cases hrest : findBestLoop md rest with
      | none => rfl
      | some m' =>
        obtain ⟨q, hq, hq2⟩ := findBestLoop_mem md rest m' hrest
        have hlen : m'.length = m.length :=
          heq q (List.mem_cons_of_mem _ hq) m' hq2
        rw [updateBest]
        rw [if_pos (by omega)]
    · have hkc : k < c := hsort'.1 c u htail
      have hnone : findBestMatchName md u0 = none :=
        hmin (k, u0) (List.mem_cons_self _ _) hkc
      rw [hnone]
      have : updateBest (findBestLoop md rest) none = findBestLoop md rest := by
        rw [updateBest]
      rw [this]
      exact ih c u m hsort'.2 htail hmatch
        (fun q hq m' hm' => heq q (List.mem_cons_of_mem _ hq) m' hm')
        (fun q hq hqc => hmin q (List.mem_cons_of_mem _ hq) hqc)

/-- C1: `_findBestMatchName` visits children in descending sorted component
order and replaces the current best when a child match's name is at least as
long, so that (1) a match found in a child subtree is returned in preference
to this node's own attached data, and (2) among sibling matches of equal
name length, the match under the (lexicographically) smallest component is
returned. -/
theorem claim_C1_findBestMatchName :
    (∀ (md : DataPacket → Bool) (nm : List Nat) ch st d co obs (m : List Nat),
      findBestLoop md ch = some m →
      findBestMatchName md (NsTree.mk nm ch st d co obs) = some m) ∧
    (∀ (md : DataPacket → Bool) (nm : List Nat) ch st d co obs
        (c : Nat) (u : NsTree) (m : List Nat),
      (ch.map Prod.fst).Pairwise (· < ·) →
      (c, u) ∈ ch →
      findBestMatchName md u = some m →
      (∀ p ∈ ch, ∀ m', findBestMatchName md p.2 = some m' → m'.length = m.length) →
      (∀ p ∈ ch, p.1 < c → findBestMatchName md p.2 = none) →
      findBestMatchName md (NsTree.mk nm ch st d co obs) = some m) := by
  constructor
  · intro md nm ch st d co obs m h
    rw [findBestMatchName_mk, h]
    rfl
  · intro md nm ch st d co obs c u m hsort hmem hmatch heq hmin
    rw [findBestMatchName_mk, findBestLoop_min md ch c u m hsort hmem hmatch heq hmin]
    rfl

/-- Witness for C1: with data at `/`, `/1` and `/2` all matching, the tree
rooted at `/` resolves to `/1` — the child matches beat the root's own data
and the lexicographically smaller sibling wins the equal-length tie. -/
theorem claim_C1_findBestMatchName_witness :
    findBestMatchName matchesAll
      (NsTree.mk [] [(1, NsTree.mk [1] [] nameExists (some ⟨[1], 0⟩) none []),
                     (2, NsTree.mk [2] [] nameExists (some ⟨[2], 0⟩) none [])]
        nameExists (some ⟨[], 0⟩) none []) = some [1] ∧
    findBestMatchName matchesAll
      (NsTree.mk [] [(2, NsTree.mk [2] [] nameExists (some ⟨[2], 0⟩) none [])]
        nameExists (some ⟨[], 0⟩) none []) = some [2] := by
  have hA : findBestMatchName matchesAll
      (NsTree.mk [1] [] nameExists (some ⟨[1], 0⟩) none []) = some [1] := by
    rw [findBestMatchName_mk, findBestLoop_nil]
    simp [ownData, matchesAll]
  have hB : findBestMatchName matchesAll
      (NsTree.mk [2] [] nameExists (some ⟨[2], 0⟩) none []) = some [2] := by
    rw [findBestMatchName_mk, findBestLoop_nil]
    simp [ownData, matchesAll]
  constructor
  · apply claim_C1_findBestMatchName.2 matchesAll [] _ nameExists
      (some ⟨[], 0⟩) none [] 1
      (NsTree.mk [1] [] nameExists (some ⟨[1], 0⟩) none []) [1]
    · simp
    · simp
    · exact hA
    · intro p hp m' hm'
      simp only [List.mem_cons, List.not_mem_nil, or_false] at hp
      rcases hp with hp | hp <;> subst hp
      · rw [hA] at hm'
        injection hm' with hm'
        rw [← hm']
      · rw [hB] at hm'
        injection hm' with hm'
        rw [← hm']
        rfl
    · intro p hp hlt
      simp only [List.mem_cons, List.not_mem_nil, or_false] at hp
      rcases hp with hp | hp <;> subst hp <;> simp at hlt
  · apply claim_C1_findBestMatchName.1 matchesAll [] _ nameExists
      (some ⟨[], 0⟩) none [] [2]
    rw [findBestLoop_cons, findBestLoop_nil, hB]
    rfl

/-! ## Theorems: claim C6 (setPipelineSize sign lock) -/

/-- C6: `setPipelineSize` raises a usage error when the new size would cross
zero in either direction (current size positive and requested size 0, or
current size 0 and requested size positive), leaving `_pipelineSize`
unchanged on the error; when the sign is preserved the new size is
stored. -/
theorem claim_C6_setPipelineSize (h : Handler) (ps : Int) :
    (h.pipelineSize > 0 → ps = 0 →
      setPipelineSize h ps =
        (h, some "GeneralizedObjectStreamHandler.setPipelineSize: Cannot change the pipeline size from non-zero to zero")) ∧
    (h.pipelineSize = 0 → ps > 0 →
      setPipelineSize h ps =
        (h, some "GeneralizedObjectStreamHandler.setPipelineSize: Cannot change the pipeline size from zero to non-zero")) ∧
    (h.pipelineSize > 0 → ps > 0 →
      setPipelineSize h ps = ({ h with pipelineSize := ps }, none)) ∧
    (h.pipelineSize = 0 → ps = 0 →
      setPipelineSize h ps = ({ h with pipelineSize := 0 }, none)) := by
  refine ⟨?_, ?_, ?_, ?_⟩
  · intro h1 h2
    subst h2
    simp only [setPipelineSize]
    rw [show (if (0 : Int) < 0 then (0 : Int) else 0) = 0 from by norm_num]
    rw [if_pos ⟨rfl, h1⟩]
  · intro h1 h2
    simp only [setPipelineSize]
    rw [show (if ps < 0 then (0 : Int) else ps) = ps from if_neg (by omega)]
    rw [if_neg (by rintro ⟨a, -⟩; omega)]
    rw [if_pos ⟨h2, h1⟩]
  · intro h1 h2
    simp only [setPipelineSize]
    rw [show (if ps < 0 then (0 : Int) else ps) = ps from if_neg (by omega)]
    rw [if_neg (by rintro ⟨a, -⟩; omega)]
    rw [if_neg (by rintro ⟨-, b⟩; omega)]
  · intro h1 h2
    subst h2
    simp only [setPipelineSize]
    rw [show (if (0 : Int) < 0 then (0 : Int) else 0) = 0 from by norm_num]
    rw [if_neg (by rintro ⟨-, b⟩; omega)]
    rw [if_neg (by rintro ⟨a, -⟩; omega)]

/-- Witness for C6: both crossing directions error on concrete handlers. -/
theorem claim_C6_setPipelineSize_witness :
    setPipelineSize (initialHandler 3 []) 0 =
      (initialHandler 3 [],
       some "GeneralizedObjectStreamHandler.setPipelineSize: Cannot change the pipeline size from non-zero to zero") ∧
    setPipelineSize (initialHandler 0 []) 2 =
      (initialHandler 0 [],
       some "GeneralizedObjectStreamHandler.setPipelineSize: Cannot change the pipeline size from zero to non-zero") ∧
    setPipelineSize (initialHandler 3 []) 5 =
      ({ initialHandler 3 [] with pipelineSize := 5 }, none) := by
  refine ⟨?_, ?_, ?_⟩
  · exact (claim_C6_setPipelineSize (initialHandler 3 []) 0).1
      (by norm_num [initialHandler]) rfl
  · exact (claim_C6_setPipelineSize (initialHandler 0 []) 2).2.1
      (by norm_num [initialHandler]) (by norm_num)
  · exact (claim_C6_setPipelineSize (initialHandler 3 []) 5).2.2.1
      (by norm_num [initialHandler]) (by norm_num)

/-! ## Theorems: claim C7 (producedSequenceNumber) -/

/-- C7 counterexample: `setObject` stores the given sequence number
unconditionally, so a `setObject` call with a smaller number makes
`getProducedSequenceNumber` decrease across a sequence of publish calls,
contradicting the claim that it never decreases. -/
theorem claim_C7_counterexample :
    getProducedSequenceNumber (setObject (setObject (initialHandler 8 []) 5) 2) <
      getProducedSequenceNumber (setObject (initialHandler 8 []) 5) := by
  norm_num [getProducedSequenceNumber, setObject, initialHandler]

/-- C7 as amended: `getProducedSequenceNumber` is -1 before any publish;
`addObject` publishes at the previous produced sequence number plus one, so
over any sequence of `addObject` calls the value never decreases; but
`setObject` stores exactly the given sequence number, which may decrease
it. -/
theorem claim_C7_producedSequenceNumber :
    (∀ (ps : Int) (ns : List NComp),
      getProducedSequenceNumber (initialHandler ps ns) = -1) ∧
    (∀ h : Handler,
      getProducedSequenceNumber (addObject h) = getProducedSequenceNumber h + 1) ∧
    (∀ (h : Handler) (n : Nat),
      getProducedSequenceNumber h ≤
        getProducedSequenceNumber (Nat.iterate addObject n h)) ∧
    (∀ (h : Handler) (s : Int), getProducedSequenceNumber (setObject h s) = s) := by
  refine ⟨fun ps ns => rfl, fun h => rfl, ?_, fun h s => rfl⟩
  intro h n
  induction n generalizing h with
  | zero => exact le_refl _
  | succ n ih =>
    rw [Function.iterate_succ_apply]
    calc getProducedSequenceNumber h
        ≤ getProducedSequenceNumber (addObject h) := by
          rw [show getProducedSequenceNumber (addObject h) =
            getProducedSequenceNumber h + 1 from rfl]
          omega
      _ ≤ getProducedSequenceNumber (Nat.iterate addObject n (addObject h)) := ih _

/-! ## Theorems: claims C8 and C9 (latest-pointer consumer) -/

/-- C8: a timeout or negative acknowledgement observed on the `_latest` node
makes the handler schedule exactly one deferred re-pull of `_latest` after
the configured `latestPacketFreshnessPeriod`, with no immediate retry and no
state change. -/
theorem claim_C8_latestTimeout (h : Handler) (state : Nat)
    (delegations : List (List NComp)) (fr : Option Rat) (env : Int → Bool)
    (hst : state = interestTimeout ∨ state = interestNetworkNack) :
    onStateChangedH h (latestName h) state delegations fr env =
      (h, [NetAction.callLaterPullLatest h.latestPacketFreshnessPeriod]) := by
  unfold onStateChangedH
  rw [if_pos ⟨hst, rfl⟩]

/-- Witness for C8 at a concrete handler. -/
theorem claim_C8_latestTimeout_witness :
    onStateChangedH (initialHandler 8 []) (latestName (initialHandler 8 []))
      interestTimeout [] none (fun _ => false) =
      (initialHandler 8 [], [NetAction.callLaterPullLatest 1000]) := by
  exact claim_C8_latestTimeout (initialHandler 8 []) interestTimeout []
    none (fun _ => false) (Or.inl rfl)

/-- C9: a received versioned `_latest` packet whose redirect has no entries,
or whose first target name is not an immediate sequence-numbered child of
the handler's namespace, is silently ignored: the handler is unchanged and
no transport action is requested (and, the model being a total function, no
exception propagates). -/
theorem claim_C9_malformedRedirect (h : Handler) (v : Int) (fr : Option Rat)
    (env : Int → Bool) :
    (onStateChangedH h (latestName h ++ [NComp.version v]) objectReady [] fr env =
      (h, [])) ∧
    (∀ (t : List NComp) (rest : List (List NComp)),
      ¬ (h.nsName.isPrefixOf t = true ∧ t.length = h.nsName.length + 1 ∧
         isSeqNoOpt t.getLast? = true) →
      onStateChangedH h (latestName h ++ [NComp.version v]) objectReady
        (t :: rest) fr env = (h, [])) := by
  have hno : ¬ (objectReady = interestTimeout ∨ objectReady = interestNetworkNack) := by
    decide
  have hver : objectReady = objectReady ∧
      (latestName h ++ [NComp.version v]).length = (latestName h).length + 1 ∧
      ((latestName h).isPrefixOf (latestName h ++ [NComp.version v]) : Bool) = true ∧
      isVersionOpt (latestName h ++ [NComp.version v]).getLast? = true := by
    refine ⟨rfl, by simp, ?_, ?_⟩
    · exact List.isPrefixOf_iff_prefix.mpr (List.prefix_append _ _)
    · rw [List.getLast?_concat]
      rfl
  constructor
  · unfold onStateChangedH
    rw [if_neg (by rintro ⟨ha, -⟩; exact hno ha)]
    rw [if_neg (by rintro ⟨ha, -⟩; exact hno ha)]
    rw [if_neg (not_not_intro (by exact_mod_cast hver))]
  · intro t rest hbad
    unfold onStateChangedH
    rw [if_neg (by rintro ⟨ha, -⟩; exact hno ha)]
    rw [if_neg (by rintro ⟨ha, -⟩; exact hno ha)]
    rw [if_neg (not_not_intro (by exact_mod_cast hver))]
    exact if_pos (by exact_mod_cast hbad)

/-- Witness for C9: a consumer with an empty namespace name ignores both an
empty redirect and a redirect to a non-sequence-numbered target. -/
theorem claim_C9_malformedRedirect_witness :
    onStateChangedH (initialHandler 0 [])
      (latestName (initialHandler 0 []) ++ [NComp.version 1]) objectReady []
      none (fun _ => false) = (initialHandler 0 [], []) ∧
    onStateChangedH (initialHandler 0 [])
      (latestName (initialHandler 0 []) ++ [NComp.version 1]) objectReady
      [[NComp.gen "bogus"]] none (fun _ => false) = (initialHandler 0 [], []) := by
  constructor
  · exact (claim_C9_malformedRedirect (initialHandler 0 []) 1 none (fun _ => false)).1
  · exact (claim_C9_malformedRedirect (initialHandler 0 []) 1 none (fun _ => false)).2
      [NComp.gen "bogus"] [] (by rintro ⟨-, -, hc⟩; simp [isSeqNoOpt] at hc)

/-! ## Theorems: claim C2 (pipeline accounting) -/

theorem requestNewLoop_stop {ps R nOut nReq maxReq cursor} (h : ¬ nOut < ps) :
    requestNewLoop ps R nOut nReq maxReq cursor =
      { requested := R, nRequested := nReq, maxRequested := maxReq, newSeqs := [] } := by
  rw [requestNewLoop]
  rw [dif_neg h]

theorem requestNewLoop_skip {ps R nOut nReq maxReq cursor} (h1 : nOut < ps)
    (h2 : cursor + 1 ∈ R) :
    requestNewLoop ps R nOut nReq maxReq cursor =
      requestNewLoop ps R nOut nReq maxReq (cursor + 1) := by
  rw [requestNewLoop]
  rw [dif_pos h1, dif_pos h2]

theorem requestNewLoop_take {ps R nOut nReq maxReq cursor} (h1 : nOut < ps)
    (h2 : ¬ cursor + 1 ∈ R) :
    requestNewLoop ps R nOut nReq maxReq cursor =
      (let out := requestNewLoop ps ((cursor + 1) :: R) (nOut + 1) (nReq + 1)
        (if cursor + 1 > maxReq then cursor + 1 else maxReq) (cursor + 1)
       { out with newSeqs := (cursor + 1) :: out.newSeqs }) := by
  rw [requestNewLoop]
  rw [dif_pos h1, dif_neg h2]

/-- The request loop never touches the reported-side counters, so
`_requestNewSequenceNumbers` preserves them. -/
theorem requestNewSequenceNumbers_reported (h : Handler) :
    (requestNewSequenceNumbers h).1.nReportedSequenceNumbers =
      h.nReportedSequenceNumbers ∧
    (requestNewSequenceNumbers h).1.maxReportedSequenceNumber =
      h.maxReportedSequenceNumber := by
  exact ⟨rfl, rfl⟩

theorem onGeneralizedObject_nReported (h : Handler) (s : Int) :
    (onGeneralizedObject h s).nReportedSequenceNumbers =
      h.nReportedSequenceNumbers + 1 := by
  unfold onGeneralizedObject
  dsimp only
  split
  · exact (requestNewSequenceNumbers_reported _).1
  · rfl

theorem onGeneralizedObject_maxReported (h : Handler) (s : Int) :
    (onGeneralizedObject h s).maxReportedSequenceNumber =
      (if s > h.maxReportedSequenceNumber then s else h.maxReportedSequenceNumber) := by
  unfold onGeneralizedObject
  dsimp only
  split
  · exact (requestNewSequenceNumbers_reported _).2
  · rfl

theorem applyCompletions_nReported : ∀ (l : List Int) (h : Handler),
    (applyCompletions h l).nReportedSequenceNumbers =
      h.nReportedSequenceNumbers + l.length := by
  intro l
  induction l with
  | nil =>
    intro h
    simp [applyCompletions]
  | cons s rest ih =>
    intro h
    rw [show applyCompletions h (s :: rest) =
      applyCompletions (onGeneralizedObject h s) rest from rfl]
    rw [ih, onGeneralizedObject_nReported]
    simp
    omega

theorem applyCompletions_maxReported : ∀ (l : List Int) (h : Handler),
    (applyCompletions h l).maxReportedSequenceNumber =
      l.foldl (fun m s => if s > m then s else m) h.maxReportedSequenceNumber := by
  intro l
  induction l with
  | nil =>
    intro h
    simp [applyCompletions]
  | cons s rest ih =>
    intro h
    rw [show applyCompletions h (s :: rest) =
      applyCompletions (onGeneralizedObject h s) rest from rfl]
    rw [ih, onGeneralizedObject_maxReported]
    rfl

/-- Folding the running-maximum update is invariant under permutation of the
completion order. -/
theorem foldl_reportMax_perm {l1 l2 : List Int} (hp : l1.Perm l2) :
    ∀ a : Int, l1.foldl (fun m s => if s > m then s else m) a =
      l2.foldl (fun m s => if s > m then s else m) a := by
  induction hp with
  | nil =>
    intro a
    rfl
  | cons x _ ih =>
    intro a
    simp only [List.foldl_cons]
    exact ih _
  | swap x y l =>
    intro a
    simp only [List.foldl_cons]
    have : (if x > (if y > a then y else a) then x else (if y > a then y else a)) =
        (if y > (if x > a then x else a) then y else (if x > a then x else a)) := by
      split_ifs <;> omega
    rw [this]
  | trans _ _ ih1 ih2 =>
    intro a
    rw [ih1, ih2]

/-- Evaluation of the C2 scenario setup: the consumer has requested sequence
numbers 5, 6 and 7 (pipeline of three, none reported). -/
theorem c2Setup_eval : c2Setup =
    { pipelineSize := 3, nsName := [], producedSequenceNumber := -1,
      latestPacketFreshnessPeriod := 1000, nRequestedSequenceNumbers := 3,
      maxRequestedSequenceNumber := 7, nReportedSequenceNumbers := 0,
      maxReportedSequenceNumber := 4, requested := [7, 6, 5] } := by
  simp [c2Setup, c2Start, initialHandler, requestNewSequenceNumbers,
    requestNewLoop_stop, requestNewLoop_skip, requestNewLoop_take]

/-- Completions for 6 then 7 (5 still outstanding): each completion refills
the window, requesting 8 and then 9. -/
theorem c2_eval_67 : applyCompletions c2Setup [6, 7] =
    { pipelineSize := 3, nsName := [], producedSequenceNumber := -1,
      latestPacketFreshnessPeriod := 1000, nRequestedSequenceNumbers := 5,
      maxRequestedSequenceNumber := 9, nReportedSequenceNumbers := 2,
      maxReportedSequenceNumber := 7, requested := [9, 8, 7, 6, 5] } := by
  rw [c2Setup_eval]
  simp [applyCompletions, onGeneralizedObject, requestNewSequenceNumbers,
    requestNewLoop_stop, requestNewLoop_skip, requestNewLoop_take]

/-- Completions for 7 then 6 give the same final state. -/
theorem c2_eval_76 : applyCompletions c2Setup [7, 6] =
    { pipelineSize := 3, nsName := [], producedSequenceNumber := -1,
      latestPacketFreshnessPeriod := 1000, nRequestedSequenceNumbers := 5,
      maxRequestedSequenceNumber := 9, nReportedSequenceNumbers := 2,
      maxReportedSequenceNumber := 7, requested := [9, 8, 7, 6, 5] } := by
  rw [c2Setup_eval]
  simp [applyCompletions, onGeneralizedObject, requestNewSequenceNumbers,
    requestNewLoop_stop, requestNewLoop_skip, requestNewLoop_take]

/-- C2 counterexample: in the claimed scenario (pipelineSize 3, requested
5, 6, 7, completions for 6 and 7 but not 5) the outstanding count
`_nRequestedSequenceNumbers - _nReportedSequenceNumbers` is not 1, because
each completion callback refills the window by requesting 8 and 9. -/
theorem claim_C2_counterexample :
    ¬ ((applyCompletions c2Setup [6, 7]).nRequestedSequenceNumbers -
        (applyCompletions c2Setup [6, 7]).nReportedSequenceNumbers = 1) := by
  rw [c2_eval_67]
  norm_num

/-- C2 as amended: with pipelineSize 3 and sequence numbers 5, 6, 7
requested, after completions for 6 and 7 (in either order, with identical
resulting bookkeeping) but not 5, `_maxReportedSequenceNumber` is 7 and the
outstanding count is 3 — the window refilled with requests for 8 and 9, so
of the original three requests only 5 is still unreported; in general the
reported-side bookkeeping (`_nReportedSequenceNumbers` and
`_maxReportedSequenceNumber`) after a set of completions is the same for
every arrival order. -/
theorem claim_C2_pipelineAccounting :
    (c2Setup.requested = [7, 6, 5] ∧
     c2Setup.nRequestedSequenceNumbers = 3 ∧
     c2Setup.nReportedSequenceNumbers = 0 ∧
     c2Setup.maxRequestedSequenceNumber = 7 ∧
     c2Setup.pipelineSize = 3) ∧
    applyCompletions c2Setup [6, 7] = applyCompletions c2Setup [7, 6] ∧
    (applyCompletions c2Setup [6, 7]).maxReportedSequenceNumber = 7 ∧
    (applyCompletions c2Setup [6, 7]).nRequestedSequenceNumbers -
      (applyCompletions c2Setup [6, 7]).nReportedSequenceNumbers = 3 ∧
    (∀ (h : Handler) (l1 l2 : List Int), l1.Perm l2 →
      (applyCompletions h l1).nReportedSequenceNumbers =
        (applyCompletions h l2).nReportedSequenceNumbers ∧
      (applyCompletions h l1).maxReportedSequenceNumber =
        (applyCompletions h l2).maxReportedSequenceNumber) := by
  refine ⟨?_, ?_, ?_, ?_, ?_⟩
  · rw [c2Setup_eval]
    norm_num
  · rw [c2_eval_67, c2_eval_76]
  · rw [c2_eval_67]
  · rw [c2_eval_67]
    norm_num
  · intro h l1 l2 hp
    constructor
    · rw [applyCompletions_nReported, applyCompletions_nReported, hp.length_eq]
    · rw [applyCompletions_maxReported, applyCompletions_maxReported,
        foldl_reportMax_perm hp]

/-- Witness for C2's order-independence at a concrete permutation. -/
theorem claim_C2_pipelineAccounting_witness :
    (applyCompletions (initialHandler 0 []) [1, 2]).nReportedSequenceNumbers =
      (applyCompletions (initialHandler 0 []) [2, 1]).nReportedSequenceNumbers ∧
    (applyCompletions (initialHandler 0 []) [1, 2]).maxReportedSequenceNumber =
      (applyCompletions (initialHandler 0 []) [2, 1]).maxReportedSequenceNumber := by
  exact claim_C2_pipelineAccounting.2.2.2.2 (initialHandler 0 []) [1, 2] [2, 1]
    (List.Perm.swap 2 1 [])
